import Mathlib

/-!
Verification of the S-Player mpv supervisor / IPC bridge (electron/main.js).

The JavaScript source is shallowly embedded: JS strings are `List Char`,
the module-level mutable state of main.js becomes explicit state records,
and each event callback becomes a state-transformer function translated
line by line from the source.
-/

namespace SPlayer

/-! ### Protocol codec (main.js, `setupIpc` data handler)

The handler keeps a global string `buffer`; on each socket read it does
`buffer += data; const lines = buffer.split('\n'); buffer = lines.pop()`
and then feeds every non-empty complete line to `JSON.parse`.

`splitNl s` returns exactly (`s.split('\n')` minus its popped last element,
that last element): the first component is the list of complete
newline-terminated segments, the second the trailing remainder.
-/

/-- Prepend a character to the first complete segment of a split result,
or to the remainder when there is no complete segment. -/
def consSeg (c : Char) : List (List Char) × List Char → List (List Char) × List Char
  | ([], rest) => ([], c :: rest)
  | (s :: ss, rest) => ((c :: s) :: ss, rest)

def splitNl : List Char → List (List Char) × List Char
  | [] => ([], [])
  | c :: cs =>
    if c = '\n' then ([] :: (splitNl cs).1, (splitNl cs).2)
    else consSeg c (splitNl cs)

/-- One `data` callback: append the chunk to the buffer, split on newline,
keep the last (possibly incomplete) segment as the new buffer. -/
def decodeStep (buf chunk : List Char) : List (List Char) × List Char :=
  splitNl (buf ++ chunk)

/-- Feed a sequence of read chunks through the line-buffered decoder,
starting from buffer `buf`: returns all complete segments in order, and
the final remainder. -/
def feedChunks (buf : List Char) : List (List Char) → List (List Char) × List Char
  | [] => ([], buf)
  | c :: cs =>
    let p := decodeStep buf c
    let r := feedChunks p.2 cs
    (p.1 ++ r.1, r.2)

/-- The messages the handler dispatches: empty lines are skipped
(`if (!line) continue`) and lines `JSON.parse` rejects are dropped by the
`try`/`catch`; `parse` stands for the JSON parse-and-classify step applied
to one complete line. -/
def decodedMessages {M : Type} (parse : List Char → Option M)
    (segs : List (List Char)) : List M :=
  (segs.filter (fun l => !l.isEmpty)).filterMap parse

theorem consSeg_nil (c : Char) (rest : List Char) :
    consSeg c ([], rest) = ([], c :: rest) := rfl

theorem consSeg_cons (c : Char) (s : List Char) (ss : List (List Char))
    (rest : List Char) : consSeg c (s :: ss, rest) = ((c :: s) :: ss, rest) := rfl

theorem splitNl_no_newline (s : List Char) : '\n' ∉ (splitNl s).2 := by
  induction s with
  | nil => simp [splitNl]
  | cons c cs ih =>
    by_cases hc : c = '\n'
    · simpa [splitNl, hc] using ih
    · rcases h : splitNl cs with ⟨segs, rest⟩
      rw [h] at ih
      cases segs with
      | nil =>
        simp only [splitNl, if_neg hc, h, consSeg_nil, List.mem_cons]
        rintro (rfl | hm)
        · exact hc rfl
        · exact ih hm
      | cons s ss => simpa [splitNl, hc, h, consSeg_cons] using ih

theorem splitNl_of_no_newline (s : List Char) (h : '\n' ∉ s) :
    splitNl s = ([], s) := by
  induction s with
  | nil => rfl
  | cons c cs ih =>
    have hc : ¬ c = '\n' := fun he => h (he ▸ List.mem_cons_self c cs)
    have hcs : '\n' ∉ cs := fun hm => h (List.mem_cons_of_mem c hm)
    simp only [splitNl, if_neg hc, ih hcs, consSeg_nil]

theorem splitNl_append (x y : List Char) :
    splitNl (x ++ y) =
      ((splitNl x).1 ++ (splitNl ((splitNl x).2 ++ y)).1,
       (splitNl ((splitNl x).2 ++ y)).2) := by
  induction x with
  | nil => simp [splitNl]
  | cons c cs ih =>
    by_cases hc : c = '\n'
    · simp only [List.cons_append, splitNl, if_pos hc, List.append_eq, ih]
    · rcases h : splitNl cs with ⟨segs, rest⟩
      cases segs with
      | nil =>
        have step : splitNl ((c :: cs) ++ y) = consSeg c (splitNl (rest ++ y)) := by
          simp only [List.cons_append, splitNl, if_neg hc, List.append_eq, ih, h]
          simp
        rw [step]
        simp only [splitNl, if_neg hc, h, consSeg_nil]
        rcases hr : splitNl (rest ++ y) with ⟨rsegs, rrest⟩
        have hcr : splitNl ((c :: rest) ++ y) = consSeg c (rsegs, rrest) := by
          simp only [List.cons_append, splitNl, if_neg hc, List.append_eq, hr]
        cases rsegs with
        | nil => simp [hr, hcr, consSeg_nil]
        | cons r rs => simp [hr, hcr, consSeg_cons]
      | cons s ss =>
        simp only [List.cons_append, splitNl, if_neg hc, List.append_eq, ih, h,
          consSeg_cons]

theorem feedChunks_eq_splitNl (chunks : List (List Char)) :
    ∀ buf : List Char, '\n' ∉ buf →
      feedChunks buf chunks = splitNl (buf ++ chunks.flatten) := by
  induction chunks with
  | nil =>
    intro buf hb
    simp [feedChunks, splitNl_of_no_newline buf hb]
  | cons c cs ih =>
    intro buf hb
    simp only [feedChunks, decodeStep, List.flatten_cons]
    rw [ih (splitNl (buf ++ c)).2 (splitNl_no_newline (buf ++ c))]
    rw [← List.append_assoc, splitNl_append (buf ++ c) cs.flatten]

/-- C1. For every byte stream of newline-delimited JSON messages and every
way of splitting it into read chunks, feeding the chunks one at a time
through the line-buffered decoder yields the same ordered sequence of
decoded messages (and the same final remainder) as delivering the whole
stream as a single chunk. -/
theorem C1_chunking_invariance (M : Type) (parse : List Char → Option M)
    (chunks : List (List Char)) :
    decodedMessages parse (feedChunks [] chunks).1
        = decodedMessages parse (feedChunks [] [chunks.flatten]).1 ∧
      (feedChunks [] chunks).2 = (feedChunks [] [chunks.flatten]).2 := by
  have h1 : feedChunks ([] : List Char) chunks = splitNl chunks.flatten := by
    simpa using feedChunks_eq_splitNl chunks [] (by simp)
  have h2 : feedChunks ([] : List Char) [chunks.flatten] = splitNl chunks.flatten := by
    simpa using feedChunks_eq_splitNl [chunks.flatten] [] (by simp)
  rw [h1, h2]
  exact ⟨rfl, rfl⟩

/-! ### Connection lifecycle of the decoder buffer (main.js, `setupIpc`)

`setupIpc` runs when a new IPC connection is established; its first
statement is `buffer = ''`, only then is the `data` listener attached.
`ipcRun` runs the decoder state (current buffer, segments dispatched so
far) through a sequence of connection events.
-/

inductive IpcEv where
  | data (chunk : List Char)
  | reconnect
deriving DecidableEq

def ipcRun : List Char × List (List Char) → List IpcEv → List Char × List (List Char)
  | st, [] => st
  | st, IpcEv.data c :: es =>
    let p := decodeStep st.1 c
    ipcRun (p.2, st.2 ++ p.1) es
  | st, IpcEv.reconnect :: es => ipcRun ([], st.2) es

theorem ipcRun_append (st : List Char × List (List Char)) (es fs : List IpcEv) :
    ipcRun st (es ++ fs) = ipcRun (ipcRun st es) fs := by
  induction es generalizing st with
  | nil => rfl
  | cons e es ih => cases e <;> simp [ipcRun, ih]

theorem ipcRun_out (es : List IpcEv) :
    ∀ buf out, ipcRun (buf, out) es
      = ((ipcRun (buf, []) es).1, out ++ (ipcRun (buf, []) es).2) := by
  induction es with
  | nil => intro buf out; simp [ipcRun]
  | cons e es ih =>
    intro buf out
    cases e with
    | data c =>
      simp only [ipcRun]
      rw [ih _ (out ++ _), ih _ ([] ++ _)]
      simp
    | reconnect =>
      simp only [ipcRun]
      rw [ih [] out, ih [] []]

/-- C10. Whenever a new control-channel connection is established the
line-assembly buffer is reset to empty before any byte of that connection
is decoded: right after the reconnect the buffer is `[]`, and the segments
decoded after the reconnect are exactly those of a fresh decoder run over
the new connection's chunks — a stale partial line from the previous
session is never prepended to the first message of the new session. -/
theorem C10_buffer_reset_on_reconnect (st : List Char × List (List Char))
    (pre post : List IpcEv) :
    (ipcRun st (pre ++ [IpcEv.reconnect])).1 = [] ∧
      (ipcRun st (pre ++ IpcEv.reconnect :: post)).2
        = (ipcRun st (pre ++ [IpcEv.reconnect])).2 ++ (ipcRun ([], []) post).2 := by
  rw [ipcRun_append, ipcRun_append]
  rcases ipcRun st pre with ⟨buf, out⟩
  refine ⟨rfl, ?_⟩
  show (ipcRun ([], out) post).2 = out ++ (ipcRun ([], []) post).2
  rw [ipcRun_out post [] out]


/-! ### Disc-title extractor (main.js, `parseBlurayTitles`)

The extractor scans the accumulated mpv diagnostic text with the global
regex

  `--edition=(\d+)\s+'title:\s*(\d+)\s*\(([^)]+)\)\s*\(([^)]+\.mpls)\)'`

appends one entry per new edition id, and — whenever at least one new
edition was found — re-sorts the whole list by decoded duration
descending, reassigns `displayIndex`/`isMain`/`durationSeconds`, and
republishes it.
-/

/-- JS `\d`. -/
def isDigitCh (c : Char) : Bool := ('0' ≤ c && c ≤ '9')

/-- JS `\s`, restricted to the ASCII whitespace characters that can occur
in the player's diagnostic output. -/
def isSpaceCh (c : Char) : Bool :=
  (c = ' ' || c = '\t' || c = '\n' || c = '\r' || c = '\x0b' || c = '\x0c')

/-- `parseInt(digits, 10)` on a digit string. -/
def natOfDigits (ds : List Char) : Nat :=
  ds.foldl (fun a c => a * 10 + (c.toNat - 48)) 0

/-- Consume an exact literal from the front of the input. -/
def stripLit : List Char → List Char → Option (List Char)
  | [], s => some s
  | _, [] => none
  | p :: ps, c :: cs => if c = p then stripLit ps cs else none

/-- Greedy `X+` for a character class: the maximal non-empty run. In the
pattern above every `+`/`*` class is followed by a character outside the
class, so the regex engine's greedy match is exactly the maximal run. -/
def takeClass1 (p : Char → Bool) (s : List Char) : Option (List Char × List Char) :=
  let t := s.takeWhile p
  if t.isEmpty then none else some (t, s.dropWhile p)

/-- One raw regex match: the four capture groups, decoded as the source
decodes them (`parseInt` on groups 1 and 2). -/
structure RawTitle where
  edition : Nat
  titleNum : Nat
  duration : List Char
  playlist : List Char
deriving DecidableEq

/-- Try to match the title regex anchored at the start of `s`; on success
return the captures and the input past the match. The final group
`([^)]+\.mpls)` followed by `\)` succeeds exactly when the maximal
`[^)]*` run ends in `.mpls` and is longer than the suffix itself. -/
def matchAt (s : List Char) : Option (RawTitle × List Char) := do
  let s ← stripLit ("--edition=".data) s
  let (ds1, s) ← takeClass1 isDigitCh s
  let (_, s) ← takeClass1 isSpaceCh s
  let s ← stripLit ("'title:".data) s
  let s := s.dropWhile isSpaceCh
  let (ds2, s) ← takeClass1 isDigitCh s
  let s := s.dropWhile isSpaceCh
  let s ← stripLit ("(".data) s
  let (dur, s) ← takeClass1 (fun c => !(c = ')')) s
  let s ← stripLit (")".data) s
  let s := s.dropWhile isSpaceCh
  let s ← stripLit ("(".data) s
  let (pl, s) ← takeClass1 (fun c => !(c = ')')) s
  let s ← stripLit (")".data) s
  let s ← stripLit ("'".data) s
  if 5 < pl.length && List.isSuffixOf (".mpls".data) pl then
    some ({ edition := natOfDigits ds1, titleNum := natOfDigits ds2,
            duration := dur, playlist := pl }, s)
  else none

/-- `regex.exec` loop with the `g` flag: find the leftmost match, emit it,
continue right after it. Fuel is the input length; every step consumes at
least one character, so the fuel never runs out. -/
def scanAux : Nat → List Char → List RawTitle
  | 0, _ => []
  | _ + 1, [] => []
  | fuel + 1, c :: cs =>
    match matchAt (c :: cs) with
    | some (t, rest) => t :: scanAux fuel rest
    | none => scanAux fuel cs

def scanTitles (s : List Char) : List RawTitle := scanAux s.length s

/-- One disc-title entry of the global `blurayTitles` array. A freshly
pushed entry has not been through the publish step yet, so the three
derived fields carry the defaults below until the next publish. -/
structure BTitle where
  edition : Nat
  titleNum : Nat
  duration : List Char
  playlist : List Char
  displayIndex : Nat := 0
  isMain : Bool := false
  durationSeconds : Option ℚ := none
deriving DecidableEq

/-- JS `parseFloat` on the strings reaching it here: a longest prefix of
digits, optionally a fraction. A string not starting with a digit yields
NaN in the source, `none` here (other `parseFloat` shapes — signs, leading
whitespace, a leading dot, exponents — do not occur in duration text and
are not modeled). -/
def parseFloatQ (s : List Char) : Option ℚ :=
  let ds := s.takeWhile isDigitCh
  if ds.isEmpty then none
  else
    match s.dropWhile isDigitCh with
    | '.' :: fs =>
      let fds := fs.takeWhile isDigitCh
      some ((natOfDigits ds : ℚ) + (natOfDigits fds : ℚ) / ((10 : ℚ) ^ fds.length))
    | _ => some ((natOfDigits ds : ℚ))

/-- JS `String.prototype.split` with a one-character separator. -/
def splitOnChar (sep : Char) : List Char → List (List Char)
  | [] => [[]]
  | c :: cs =>
    if c = sep then [] :: splitOnChar sep cs
    else
      match splitOnChar sep cs with
      | [] => [[c]]
      | s :: ss => (c :: s) :: ss

/-- `d.split(':').reduce((acc, t) => acc * 60 + parseFloat(t), 0)`:
`none` plays the role of NaN and propagates through the fold. -/
def toSec (d : List Char) : Option ℚ :=
  (splitOnChar ':' d).foldl
    (fun acc seg =>
      match acc, parseFloatQ seg with
      | some a, some x => some (a * 60 + x)
      | _, _ => none)
    (some 0)

/-- The sort key of a title, with NaN read as 0; the theorems below only
use it under the `numericDur` hypothesis, where `toSec` is `some`. -/
def dkey (t : BTitle) : ℚ := (toSec t.duration).getD 0

/-- The comparator `(a, b) => toSec(b) - toSec(a)` asks for `b` strictly
before `a` exactly when its value is positive; a NaN comparator value is
treated as 0 (equal) by the ECMAScript sort specification. -/
def keyGtB : Option ℚ → Option ℚ → Bool
  | some x, some y => decide (y < x)
  | _, _ => false

/-- Insert into an already sorted (descending) list, after every element
strictly greater: with a consistent comparator this is the unique stable
sort order, and V8's `Array.prototype.sort` is stable. -/
def insertTitle (t : BTitle) : List BTitle → List BTitle
  | [] => [t]
  | h :: r =>
    if keyGtB (toSec h.duration) (toSec t.duration) then h :: insertTitle t r
    else t :: h :: r

/-- `blurayTitles.sort((a, b) => toSec(b.duration) - toSec(a.duration))`
as a stable insertion sort. -/
def sortTitles : List BTitle → List BTitle
  | [] => []
  | t :: r => insertTitle t (sortTitles r)

/-- The field update applied to the title at (0-based) sort position `i`
by the publish step's `forEach`. -/
def publishUpd (i : Nat) (t : BTitle) : BTitle :=
  { t with displayIndex := i + 1, isMain := i == 0,
           durationSeconds := toSec t.duration }

/-- The publish step's `forEach((t, i) => ...)` over the sorted list. -/
def finalizeTitles : Nat → List BTitle → List BTitle
  | _, [] => []
  | i, t :: r => publishUpd i t :: finalizeTitles (i + 1) r

/-- The dedup loop body: skip editions already present, append new ones,
remember that something was found. -/
def addTitle (acc : List BTitle × Bool) (m : RawTitle) : List BTitle × Bool :=
  if acc.1.any (fun t => t.edition == m.edition) then acc
  else
    (acc.1 ++ [{ edition := m.edition, titleNum := m.titleNum,
                 duration := m.duration, playlist := m.playlist }], true)

/-- `parseBlurayTitles(buffer)` as a function of the current global
`blurayTitles` list: returns the new list and whether it was republished
(`mainWindow.webContents.send('bluray-titles', ...)` fired). -/
def parseBlurayTitles (titles : List BTitle) (buffer : List Char) :
    List BTitle × Bool :=
  let p := (scanTitles buffer).foldl addTitle (titles, false)
  if p.2 && !p.1.isEmpty then (finalizeTitles 0 (sortTitles p.1), true)
  else (p.1, false)

/-- The extractor across a whole sequence of scans: main.js calls
`parseBlurayTitles` once per stdout/stderr read, each time on the
cumulative buffer so far. -/
def runScans (titles : List BTitle) (bufs : List (List Char)) : List BTitle :=
  bufs.foldl (fun ts b => (parseBlurayTitles ts b).1) titles

/-- A duration string is numeric when every `:`-separated segment is a
non-empty digit string: what the player actually prints (`H:MM:SS`), and
the precondition under which the JS float arithmetic is exact and the
sort comparator is consistent. -/
def numericDur (d : List Char) : Bool :=
  (splitOnChar ':' d).all (fun seg => !seg.isEmpty && seg.all isDigitCh)

example :
    scanTitles ("--edition=0 'title: 1 (1:02:03) (00001.mpls)'".data ++
        ('\n' :: "--edition=1 'title: 2 (0:49) (00002.mpls)'".data))
      = [{ edition := 0, titleNum := 1, duration := "1:02:03".data,
           playlist := "00001.mpls".data },
         { edition := 1, titleNum := 2, duration := "0:49".data,
           playlist := "00002.mpls".data }] := by decide


/-- Integer value of a numeric duration string: the same left fold
`acc * 60 + segment`, over `ℕ`. -/
def toSecN (d : List Char) : Nat :=
  (splitOnChar ':' d).foldl (fun a s => a * 60 + natOfDigits s) 0

theorem takeWhile_of_all {p : Char → Bool} (l : List Char) (h : l.all p = true) :
    l.takeWhile p = l := by
  induction l with
  | nil => rfl
  | cons c cs ih =>
    rw [List.all_cons, Bool.and_eq_true] at h
    simp [List.takeWhile, h.1, ih h.2]

theorem dropWhile_of_all {p : Char → Bool} (l : List Char) (h : l.all p = true) :
    l.dropWhile p = [] := by
  induction l with
  | nil => rfl
  | cons c cs ih =>
    rw [List.all_cons, Bool.and_eq_true] at h
    simp [List.dropWhile, h.1, ih h.2]

theorem parseFloatQ_numeric (s : List Char) (h1 : s.isEmpty = false)
    (h2 : s.all isDigitCh = true) :
    parseFloatQ s = some ((natOfDigits s : ℚ)) := by
  unfold parseFloatQ
  rw [takeWhile_of_all s h2, dropWhile_of_all s h2]
  simp [h1]

theorem toSec_numeric (d : List Char) (h : numericDur d = true) :
    toSec d = some ((toSecN d : ℚ)) := by
  unfold numericDur at h
  unfold toSec toSecN
  rw [List.all_eq_true] at h
  generalize splitOnChar ':' d = segs at h
  suffices hgen : ∀ (segs : List (List Char)),
      (∀ s ∈ segs, (!s.isEmpty && s.all isDigitCh) = true) → ∀ a : Nat,
      segs.foldl
          (fun acc seg =>
            match acc, parseFloatQ seg with
            | some a, some x => some (a * 60 + x)
            | _, _ => none)
          (some ((a : ℚ)))
        = some (((segs.foldl (fun b s => b * 60 + natOfDigits s) a : Nat) : ℚ)) by
    have hg := hgen segs h 0
    rw [Nat.cast_zero] at hg
    exact hg
  intro segs hsegs
  induction segs with
  | nil => intro a; rfl
  | cons s ss ih =>
    intro a
    have hs := hsegs s (List.mem_cons_self s ss)
    rw [Bool.and_eq_true, Bool.not_eq_true'] at hs
    have hpf := parseFloatQ_numeric s hs.1 hs.2
    simp only [List.foldl_cons, hpf]
    have hcast : ((a : ℚ)) * 60 + ((natOfDigits s : ℚ))
        = (((a * 60 + natOfDigits s : Nat) : ℚ)) := by push_cast; ring
    rw [hcast]
    exact ih (fun u hu => hsegs u (List.mem_cons_of_mem s hu)) (a * 60 + natOfDigits s)

example : toSec ("1:02:03".data) = some 3723 := by
  rw [toSec_numeric _ (by decide)]
  norm_num [show toSecN ("1:02:03".data) = 3723 from by decide]

example : toSec ("0:49".data) = some 49 := by
  rw [toSec_numeric _ (by decide)]
  norm_num [show toSecN ("0:49".data) = 49 from by decide]

/-- The raw match as pushed by the dedup loop
(`blurayTitles.push({ edition, titleNum, duration, playlist })`). -/
def rawToB (m : RawTitle) : BTitle :=
  { edition := m.edition, titleNum := m.titleNum,
    duration := m.duration, playlist := m.playlist }

def editions (l : List BTitle) : List Nat := l.map (fun t => t.edition)

theorem insertTitle_perm (t : BTitle) (l : List BTitle) :
    (insertTitle t l).Perm (t :: l) := by
  induction l with
  | nil => exact List.Perm.refl _
  | cons h r ih =>
    cases hk : keyGtB (toSec h.duration) (toSec t.duration) with
    | true =>
      simp only [insertTitle, hk, if_true]
      exact (ih.cons h).trans (List.Perm.swap t h r)
    | false =>
      simp only [insertTitle, hk]
      rfl

theorem sortTitles_perm (l : List BTitle) : (sortTitles l).Perm l := by
  induction l with
  | nil => exact List.Perm.refl _
  | cons t r ih => exact (insertTitle_perm t (sortTitles r)).trans (ih.cons t)

theorem mem_sortTitles {u : BTitle} {l : List BTitle} :
    u ∈ sortTitles l ↔ u ∈ l := (sortTitles_perm l).mem_iff

theorem editions_finalize (l : List BTitle) :
    ∀ i, editions (finalizeTitles i l) = editions l := by
  induction l with
  | nil => intro i; rfl
  | cons t r ih =>
    intro i
    simp only [finalizeTitles, editions, List.map_cons] at *
    rw [ih (i + 1)]
    simp [publishUpd]

theorem finalize_length (l : List BTitle) :
    ∀ i, (finalizeTitles i l).length = l.length := by
  induction l with
  | nil => intro i; rfl
  | cons t r ih => intro i; simp [finalizeTitles, ih (i + 1)]

theorem mem_finalize {u : BTitle} (l : List BTitle) :
    ∀ i, u ∈ finalizeTitles i l → ∃ j t, t ∈ l ∧ u = publishUpd j t := by
  induction l with
  | nil => intro i h; simp [finalizeTitles] at h
  | cons t r ih =>
    intro i h
    rcases List.mem_cons.mp h with h1 | h2
    · exact ⟨i, t, List.mem_cons_self t r, h1⟩
    · rcases ih (i + 1) h2 with ⟨j, v, hv, he⟩
      exact ⟨j, v, List.mem_cons_of_mem t hv, he⟩

theorem foldl_addTitle_nodup (ms : List RawTitle) :
    ∀ (l : List BTitle) (f : Bool), (editions l).Nodup →
      (editions (ms.foldl addTitle (l, f)).1).Nodup := by
  induction ms with
  | nil => intro l f h; exact h
  | cons m ms ih =>
    intro l f h
    rw [List.foldl_cons]
    cases ha : l.any (fun t => t.edition == m.edition) with
    | true =>
      simpa only [addTitle, ha, if_true] using ih l f h
    | false =>
      have hne : m.edition ∉ editions l := by
        intro hmem
        rcases List.mem_map.mp hmem with ⟨t, ht, he⟩
        have := List.any_eq_false.mp ha t ht
        simp [he] at this
      simp only [addTitle, ha, Bool.false_eq_true, if_false]
      apply ih
      simp only [editions, List.map_append, List.map_cons, List.map_nil]
      rw [List.nodup_append]
      exact ⟨h, List.nodup_singleton _,
        fun a ha hb => hne ((List.mem_singleton.mp hb) ▸ ha)⟩

theorem mem_foldl_addTitle (ms : List RawTitle) :
    ∀ (l : List BTitle) (f : Bool) (u : BTitle),
      u ∈ (ms.foldl addTitle (l, f)).1 →
        u ∈ l ∨ ∃ m ∈ ms, u = rawToB m := by
  induction ms with
  | nil => intro l f u h; exact Or.inl h
  | cons m ms ih =>
    intro l f u h
    rw [List.foldl_cons] at h
    cases ha : l.any (fun t => t.edition == m.edition) with
    | true =>
      rw [addTitle, ha] at h
      simp only [if_true] at h
      rcases ih l f u h with h1 | ⟨m', hm', he⟩
      · exact Or.inl h1
      · exact Or.inr ⟨m', List.mem_cons_of_mem m hm', he⟩
    | false =>
      rw [addTitle, ha] at h
      simp only [Bool.false_eq_true, if_false] at h
      rcases ih _ _ u h with h1 | ⟨m', hm', he⟩
      · rcases List.mem_append.mp h1 with h2 | h3
        · exact Or.inl h2
        · refine Or.inr ⟨m, List.mem_cons_self m ms, ?_⟩
          simpa [rawToB] using h3
      · exact Or.inr ⟨m', List.mem_cons_of_mem m hm', he⟩

theorem parseBlurayTitles_nodup (titles : List BTitle) (buffer : List Char)
    (h : (editions titles).Nodup) :
    (editions (parseBlurayTitles titles buffer).1).Nodup := by
  unfold parseBlurayTitles
  have hp := foldl_addTitle_nodup (scanTitles buffer) titles false h
  set p := (scanTitles buffer).foldl addTitle (titles, false) with hpdef
  by_cases hc : (p.2 && !p.1.isEmpty) = true
  · simp only [hc, if_true]
    rw [editions_finalize]
    show (List.map (fun t => t.edition) (sortTitles p.1)).Nodup
    have hp2 : (List.map (fun t => t.edition) p.1).Nodup := hp
    exact ((sortTitles_perm p.1).map (fun t => t.edition)).nodup_iff.mpr hp2
  · simp only [hc, if_false]
    exact hp

/-- C3. For every sequence of diagnostic-text buffers fed to the extractor
— including buffers that repeat edition ids and repeated re-scans of the
same cumulative buffer — the title list holds exactly one entry per
distinct edition id: the edition id is a unique key (`Nodup`) of the set. -/
theorem C3_edition_id_unique (bufs : List (List Char)) :
    (editions (runScans [] bufs)).Nodup := by
  suffices hgen : ∀ (bs : List (List Char)) (ts : List BTitle),
      (editions ts).Nodup → (editions (runScans ts bs)).Nodup by
    exact hgen bufs [] (by simp [editions])
  intro bs
  induction bs with
  | nil => intro ts h; exact h
  | cons b rest ih =>
    intro ts h
    exact ih _ (parseBlurayTitles_nodup ts b h)

/-- A title whose duration string is numeric (see `numericDur`). -/
def numTitle (t : BTitle) : Bool := numericDur t.duration

/-- Descending order by derived duration. -/
def descR (a b : BTitle) : Prop := dkey b ≤ dkey a

theorem dkey_publishUpd (i : Nat) (t : BTitle) :
    dkey (publishUpd i t) = dkey t := rfl

theorem keyGtB_iff (a b : BTitle) (ha : numTitle a = true)
    (hb : numTitle b = true) :
    (keyGtB (toSec a.duration) (toSec b.duration) = true) ↔ dkey b < dkey a := by
  unfold numTitle at ha hb
  unfold dkey
  rw [toSec_numeric _ ha, toSec_numeric _ hb]
  simp [keyGtB]

theorem mem_insertTitle {u t : BTitle} {l : List BTitle} :
    u ∈ insertTitle t l ↔ u = t ∨ u ∈ l := by
  rw [(insertTitle_perm t l).mem_iff, List.mem_cons]

theorem insertTitle_pairwise (t : BTitle) (l : List BTitle)
    (ht : numTitle t = true) (hl : ∀ u ∈ l, numTitle u = true)
    (h : l.Pairwise descR) : (insertTitle t l).Pairwise descR := by
  induction l with
  | nil => simp [insertTitle]
  | cons a r ih =>
    have hna : numTitle a = true := hl a (List.mem_cons_self a r)
    have hr : ∀ u ∈ r, numTitle u = true :=
      fun u hu => hl u (List.mem_cons_of_mem a hu)
    rw [List.pairwise_cons] at h
    cases hk : keyGtB (toSec a.duration) (toSec t.duration) with
    | true =>
      simp only [insertTitle, hk, if_true]
      rw [List.pairwise_cons]
      refine ⟨?_, ih hr h.2⟩
      intro u hu
      rcases mem_insertTitle.mp hu with rfl | hur
      · exact le_of_lt ((keyGtB_iff a u hna ht).mp hk)
      · exact h.1 u hur
    | false =>
      simp only [insertTitle, hk, Bool.false_eq_true, if_false]
      have hat : dkey a ≤ dkey t := by
        by_contra hcon
        rw [not_le] at hcon
        have h2 := (keyGtB_iff a t hna ht).mpr hcon
        rw [h2] at hk
        simp at hk
      rw [List.pairwise_cons]
      refine ⟨?_, List.pairwise_cons.mpr h⟩
      intro u hu
      rcases List.mem_cons.mp hu with rfl | hur
      · exact hat
      · exact le_trans (h.1 u hur) hat

theorem sortTitles_pairwise (l : List BTitle)
    (hl : ∀ u ∈ l, numTitle u = true) : (sortTitles l).Pairwise descR := by
  induction l with
  | nil => simp [sortTitles]
  | cons t r ih =>
    have ht := hl t (List.mem_cons_self t r)
    have hr : ∀ u ∈ r, numTitle u = true :=
      fun u hu => hl u (List.mem_cons_of_mem t hu)
    exact insertTitle_pairwise t (sortTitles r) ht
      (fun u hu => hr u (mem_sortTitles.mp hu)) (ih hr)

theorem finalize_pairwise (l : List BTitle) (h : l.Pairwise descR) :
    ∀ i, (finalizeTitles i l).Pairwise descR := by
  induction l with
  | nil => intro i; simp [finalizeTitles]
  | cons t r ih =>
    intro i
    rw [List.pairwise_cons] at h
    show (publishUpd i t :: finalizeTitles (i + 1) r).Pairwise descR
    rw [List.pairwise_cons]
    refine ⟨?_, ih h.2 (i + 1)⟩
    intro u hu
    rcases mem_finalize r (i + 1) hu with ⟨j, v, hv, rfl⟩
    show dkey (publishUpd j v) ≤ dkey (publishUpd i t)
    rw [dkey_publishUpd, dkey_publishUpd]
    exact h.1 v hv

theorem finalize_displayIndex (l : List BTitle) :
    ∀ i, (finalizeTitles i l).map (fun t => t.displayIndex)
      = List.range' (i + 1) l.length := by
  induction l with
  | nil => intro i; simp [finalizeTitles]
  | cons t r ih =>
    intro i
    show (publishUpd i t :: finalizeTitles (i + 1) r).map (fun t => t.displayIndex) = _
    rw [List.map_cons, ih (i + 1)]
    show (i + 1) :: List.range' (i + 2) r.length = List.range' (i + 1) (r.length + 1)
    rw [List.range'_succ]

theorem finalize_isMain_tail (l : List BTitle) :
    ∀ i, 0 < i → ∀ u ∈ finalizeTitles i l, u.isMain = false := by
  induction l with
  | nil => intro i _ u hu; simp [finalizeTitles] at hu
  | cons t r ih =>
    intro i hi u hu
    rcases List.mem_cons.mp hu with rfl | h2
    · have hne : i ≠ 0 := Nat.pos_iff_ne_zero.mp hi
      show (publishUpd i t).isMain = false
      simp [publishUpd, hne]
    · exact ih (i + 1) (Nat.succ_pos i) u h2

/-- C2. Whenever a scan finds at least one new edition and the title list
is republished, the published list is sorted in descending order of
derived duration (split the duration string on `:`, fold `acc * 60 +
unit`), its `displayIndex` values are exactly `1..N` in that sorted order,
exactly one entry has `isMain = true`, that entry's derived duration is
maximal, and every entry's `durationSeconds` is its decoded duration.
Numeric durations (`H:MM:SS` digit strings, the player's format) are
assumed, which is where the source's float arithmetic is exact and its
sort comparator never returns NaN. -/
theorem C2_publish_sorted (titles : List BTitle) (buffer : List Char)
    (hnumT : ∀ t ∈ titles, numTitle t = true)
    (hnumS : ∀ m ∈ scanTitles buffer, numericDur m.duration = true)
    (hpub : (parseBlurayTitles titles buffer).2 = true) :
    ((parseBlurayTitles titles buffer).1.Pairwise descR) ∧
      ((parseBlurayTitles titles buffer).1.map (fun t => t.displayIndex)
        = List.range' 1 (parseBlurayTitles titles buffer).1.length) ∧
      (((parseBlurayTitles titles buffer).1.filter (fun t => t.isMain)).length
        = 1) ∧
      (∀ t ∈ (parseBlurayTitles titles buffer).1, t.isMain = true →
        ∀ u ∈ (parseBlurayTitles titles buffer).1, dkey u ≤ dkey t) ∧
      (∀ t ∈ (parseBlurayTitles titles buffer).1,
        t.durationSeconds = toSec t.duration) := by
  simp only [parseBlurayTitles] at hpub ⊢
  set p := (scanTitles buffer).foldl addTitle (titles, false) with hpdef
  by_cases hc : (p.2 && !p.1.isEmpty) = true
  swap
  · rw [if_neg hc] at hpub
    simp at hpub
  rw [if_pos hc] at hpub ⊢
  have hnumP : ∀ u ∈ p.1, numTitle u = true := by
    intro u hu
    rcases mem_foldl_addTitle (scanTitles buffer) titles false u hu with h1 | ⟨m, hm, he⟩
    · exact hnumT u h1
    · rw [he]
      exact hnumS m hm
  have hpne : p.1 ≠ [] := by
    intro he
    rw [Bool.and_eq_true] at hc
    rw [he] at hc
    simp [List.isEmpty] at hc
  have hpair := sortTitles_pairwise p.1 hnumP
  have hsne : sortTitles p.1 ≠ [] := by
    intro he
    apply hpne
    have hlen := (sortTitles_perm p.1).length_eq
    rw [he] at hlen
    exact List.length_eq_zero.mp hlen.symm
  obtain ⟨s, ss, hss⟩ : ∃ s ss, sortTitles p.1 = s :: ss := by
    cases hs : sortTitles p.1 with
    | nil => exact absurd hs hsne
    | cons a l => exact ⟨a, l, rfl⟩
  refine ⟨finalize_pairwise _ hpair 0, ?_, ?_, ?_, ?_⟩
  · rw [finalize_length]
    simpa using finalize_displayIndex (sortTitles p.1) 0
  · rw [hss]
    show ((publishUpd 0 s :: finalizeTitles 1 ss).filter (fun t => t.isMain)).length
      = 1
    have h1 : (publishUpd 0 s).isMain = true := rfl
    have h2 : (finalizeTitles 1 ss).filter (fun t => t.isMain) = [] := by
      rw [List.filter_eq_nil_iff]
      intro u hu
      rw [finalize_isMain_tail ss 1 (by norm_num) u hu]
      simp
    rw [List.filter_cons, if_pos (by simp [h1]), h2]
    rfl
  · rw [hss]
    intro t ht hmain u hu
    have ht2 : t = publishUpd 0 s := by
      rcases List.mem_cons.mp ht with h1 | h2
      · exact h1
      · rw [finalize_isMain_tail ss 1 (by norm_num) t h2] at hmain
        simp at hmain
    rcases mem_finalize (s :: ss) 0 hu with ⟨j, v, hv, he⟩
    rw [ht2, he, dkey_publishUpd, dkey_publishUpd]
    rw [hss] at hpair
    rcases List.pairwise_cons.mp hpair with ⟨hhead, _⟩
    rcases List.mem_cons.mp hv with rfl | hvs
    · exact le_refl _
    · exact hhead v hvs
  · intro t ht
    rcases mem_finalize (sortTitles p.1) 0 ht with ⟨j, v, hv, he⟩
    rw [he]
    rfl

/-- The buffer of the worked spec example: two title announcement lines. -/
def demoBuf : List Char :=
  ("--edition=0 'title: 1 (1:02:03) (00001.mpls)'" ++ "\n"
    ++ "--edition=1 'title: 2 (0:49) (00002.mpls)'").data

theorem C2_publish_sorted_witness :
    ((∀ t ∈ ([] : List BTitle), numTitle t = true) ∧
        (∀ m ∈ scanTitles demoBuf, numericDur m.duration = true) ∧
        (parseBlurayTitles [] demoBuf).2 = true) ∧
      (((parseBlurayTitles [] demoBuf).1.Pairwise descR) ∧
        ((parseBlurayTitles [] demoBuf).1.map (fun t => t.displayIndex)
          = List.range' 1 (parseBlurayTitles [] demoBuf).1.length) ∧
        (((parseBlurayTitles [] demoBuf).1.filter (fun t => t.isMain)).length
          = 1) ∧
        (∀ t ∈ (parseBlurayTitles [] demoBuf).1, t.isMain = true →
          ∀ u ∈ (parseBlurayTitles [] demoBuf).1, dkey u ≤ dkey t) ∧
        (∀ t ∈ (parseBlurayTitles [] demoBuf).1,
          t.durationSeconds = toSec t.duration)) :=
  ⟨⟨by simp, by decide, by decide⟩,
    C2_publish_sorted [] demoBuf (by simp) (by decide) (by decide)⟩

/-! ### IPC connect retry (main.js, `connectIpc`)

`connectIpc(retries)`: returns without any action once `retries > 40`;
otherwise creates a socket; the socket's `error` event schedules
`connectIpc(retries + 1)` 100 ms later; its `connect` event runs
`setupIpc` and sends `mpv-ready`. `outcome n` abstracts whether the
attempt at retry count `n` connects (`false` = ConnectionRefused).
The run returns (number of connection attempts made, whether the
session-ready event was ever sent).
-/

def connectIpcRun (outcome : Nat → Bool) (retries : Nat) : Nat × Bool :=
  if 40 < retries then (0, false)
  else if outcome retries then (1, true)
  else
    let r := connectIpcRun outcome (retries + 1)
    (r.1 + 1, r.2)
termination_by 41 - retries
decreasing_by omega

theorem connectIpcRun_all_fail (outcome : Nat → Bool)
    (h : ∀ n, outcome n = false) :
    ∀ k r, r + k = 41 → connectIpcRun outcome r = (k, false) := by
  intro k
  induction k with
  | zero =>
    intro r hr
    rw [connectIpcRun]
    rw [if_pos (by omega)]
  | succ n ih =>
    intro r hr
    rw [connectIpcRun]
    rw [if_neg (by omega : ¬ 40 < r), h r]
    simp only [Bool.false_eq_true, if_false]
    rw [ih (r + 1) (by omega)]

/-- C6. If every connection attempt fails with ConnectionRefused the
retry loop terminates after a bounded number of attempts (exactly 41,
one per scheduled 100 ms timer; the guard is `retries > 40`), the
session-ready event is never emitted for the session, and no further
retry is scheduled afterwards (the recursion stops at the guard). -/
theorem C6_retry_bound (outcome : Nat → Bool) (h : ∀ n, outcome n = false) :
    connectIpcRun outcome 0 = (41, false) :=
  connectIpcRun_all_fail outcome h 41 0 rfl

theorem C6_retry_bound_witness :
    connectIpcRun (fun _ => false) 0 = (41, false) :=
  C6_retry_bound (fun _ => false) (fun _ => rfl)

/-! ### Player process supervisor (main.js globals, `startMpv`, `killMpv`,
`stopPlayback`, the per-process `exit` handler, and the `play` / `stop` /
`switch-title` IPC handlers)

The state holds the module globals of main.js plus ghost bookkeeping —
which spawned OS processes are still running (`liveProcs`), which
terminated processes still have their `exit` event pending
(`dyingProcs`), which sockets are open (`openChans`) — needed to express
the leak/singleton claims. Fresh ids come from `nextPid` / `nextCid`.

Asynchrony model: each synchronous JS callback is one atomic step; the
event loop's deferred deliveries (the `exit` event of a killed or crashed
process, a success of the scheduled `connectIpc`) are separate steps that
the environment interleaves. `kill()` is modeled as immediate
termination with the `exit` event left pending. The 500 ms title-switch
settle `await` is modeled as a no-op (all theorems below drive the play
path, whose body is fully synchronous up to the scheduled connect), and
`mainWindow` is assumed present.
-/

inductive UiEv where
  | mpvReady
  | mpvClosed
  | switchingTitle
  | blurayList (ts : List BTitle)
  | mpvError
deriving DecidableEq

structure MainState where
  mpvProcess : Option Nat
  ipcClient : Option Nat
  blurayTitles : List BTitle
  currentBlurayDevice : Option (List Char)
  isPlayingContent : Bool
  stdoutBuffer : List Char
  liveProcs : List Nat
  dyingProcs : List Nat
  openChans : List Nat
  nextPid : Nat
  nextCid : Nat
  uiEvents : List UiEv
deriving DecidableEq

def initState : MainState :=
  { mpvProcess := none, ipcClient := none, blurayTitles := [],
    currentBlurayDevice := none, isPlayingContent := false,
    stdoutBuffer := [], liveProcs := [], dyingProcs := [],
    openChans := [], nextPid := 0, nextCid := 0, uiEvents := [] }

/-- `try { ipcClient.destroy() } catch {}; ipcClient = null` -/
def destroyClient (st : MainState) : MainState :=
  match st.ipcClient with
  | some c => { st with openChans := st.openChans.erase c, ipcClient := none }
  | none => st

/-- `killMpv()` (lines 427-437): destroy the IPC client, then kill the
process; the killed process's `exit` event is left pending. -/
def killMpv (st : MainState) : MainState :=
  let st := destroyClient st
  match st.mpvProcess with
  | some p =>
    { st with liveProcs := st.liveProcs.erase p,
              dyingProcs := st.dyingProcs ++ [p], mpvProcess := none }
  | none => st

def gb (k : Nat) : Nat := k * 1024 * 1024 * 1024

/-- `filePath.toLowerCase().endsWith('.iso')`. -/
def isIsoPath (path : List Char) : Bool :=
  List.isSuffixOf (".iso".data) (path.map Char.toLower)

/-- The cache tier pushed for non-ISO sources (lines 256-281), keyed on
the probed size in bytes (`none` = `statSync` threw). The JS comparison
`size / 2**30 > k` is exact — f64 division by a power of two only shifts
the exponent — so it agrees with `k * 2**30 < size`. -/
def cacheArgs (sz : Option Nat) : List (List Char) :=
  match sz with
  | some n =>
    if gb 10 < n then
      ["--demuxer-max-bytes=500M".data, "--demuxer-readahead-secs=60".data]
    else if gb 5 < n then
      ["--demuxer-max-bytes=300M".data, "--demuxer-readahead-secs=40".data]
    else
      ["--demuxer-max-bytes=150M".data, "--demuxer-readahead-secs=20".data]
  | none => ["--demuxer-max-bytes=200M".data, "--demuxer-readahead-secs=30".data]

/-- The constant argument block of lines 187-250, after the `--wid=`
argument. -/
def baseRest : List (List Char) :=
  [("--input-ipc-server=\\\\.\\pipe\\s-player-mpv").data,
   ("--no-border").data, ("--no-osc").data, ("--no-osd-bar").data,
   ("--keep-open=yes").data, ("--hwdec=auto-safe").data, ("--vo=gpu").data,
   ("--gpu-api=auto").data, ("--gpu-context=auto").data,
   ("--hwdec-codecs=all").data, ("--scale=ewa_lanczossharp").data,
   ("--cscale=ewa_lanczossharp").data, ("--dscale=mitchell").data,
   ("--correct-downscaling=yes").data, ("--linear-downscaling=yes").data,
   ("--sigmoid-upscaling=yes").data, ("--deband=yes").data,
   ("--deband-iterations=2").data, ("--deband-threshold=48").data,
   ("--deband-range=16").data, ("--deband-grain=48").data,
   ("--interpolation=yes").data, ("--video-sync=display-resample").data,
   ("--tscale=oversample").data, ("--ao=wasapi").data,
   ("--audio-exclusive=no").data, ("--audio-fallback-to-null=yes").data,
   ("--sub-auto=fuzzy").data, ("--sub-visibility=yes").data,
   ("--alang=chi,zho,zh,cmn,chs,cht,sc,tc,cn,tw,yue,cantonese,mandarin,chinese,eng,en,jpn,ja").data,
   ("--slang=chi,zho,zh,cmn,chs,cht,sc,tc,cn,tw,chinese,eng,en").data,
   ("--force-window=immediate").data, ("--cache=yes").data,
   ("--demuxer-max-bytes=150M").data, ("--demuxer-readahead-secs=20").data,
   ("--audio-channels=auto").data, ("--target-trc=auto").data,
   ("--tone-mapping=hable").data, ("--hdr-compute-peak=yes").data,
   ("--target-prim=auto").data]

def baseArgs (wid : List Char) : List (List Char) :=
  (("--wid=").data ++ wid) :: baseRest

/-- The universal buffering flags pushed after the tier (lines 284-289). -/
def commonCacheArgs : List (List Char) :=
  [("--cache-pause=yes").data, ("--cache-pause-wait=3").data,
   ("--cache-pause-initial=yes").data, ("--demuxer-seekable-cache=yes").data]

/-- What the argument-construction section (lines 186-332) produces: the
spawn argument vector, the new `currentBlurayDevice`, and whether
`blurayTitles` is cleared (`blurayTitles = []` runs only in the bluray
branch and only when `titleEdition === null`). -/
structure LaunchCfg where
  args : List (List Char)
  device : Option (List Char)
  clearTitles : Bool
deriving DecidableEq

def mpvLaunch (wid path : List Char) (titleEdition : Option Nat)
    (sz : Option Nat) : LaunchCfg :=
  let isIso := isIsoPath path
  let args := baseArgs wid ++ (if isIso then [] else cacheArgs sz)
    ++ commonCacheArgs
  if isIso then
    match sz with
    | some n =>
      if gb 10 < n then
        { args := args ++ [("--bluray-device=").data ++ path]
            ++ (match titleEdition with
                | some e => [("--edition=").data ++ (Nat.repr e).data]
                | none => [])
            ++ [("bd://longest").data],
          device := some path,
          clearTitles := titleEdition == none }
      else
        { args := args ++ [("--dvd-device=").data ++ path, ("dvd://longest").data],
          device := none, clearTitles := false }
    | none =>
      { args := args ++ [("--bluray-device=").data ++ path]
          ++ (match titleEdition with
              | some e => [("--edition=").data ++ (Nat.repr e).data]
              | none => [])
          ++ [("bd://longest").data],
        device := some path, clearTitles := false }
  else
    { args := args ++ [path], device := none, clearTitles := false }

/-- `startMpv(filePath, titleEdition)` (lines 155-374), up to its
synchronous end: destroy the old client, notify on a title switch, kill
the old process, build the arguments (with their embedded writes to
`blurayTitles` and `currentBlurayDevice`), spawn the new process with a
fresh per-process output buffer, set `isPlayingContent`. The deferred
`connectIpc` is modeled by the separate `connectSuccess` step. -/
def startMpv (st : MainState) (path : List Char) (titleEdition : Option Nat)
    (sz : Option Nat) (wid : List Char) : MainState :=
  let st := destroyClient st
  let st :=
    if titleEdition != none then
      { st with uiEvents := st.uiEvents ++ [UiEv.switchingTitle] }
    else st
  let st := killMpv st
  let cfg := mpvLaunch wid path titleEdition sz
  let st := { st with
    blurayTitles := if cfg.clearTitles then [] else st.blurayTitles,
    currentBlurayDevice := cfg.device }
  { st with
    mpvProcess := some st.nextPid,
    liveProcs := st.liveProcs ++ [st.nextPid],
    nextPid := st.nextPid + 1,
    isPlayingContent := true,
    stdoutBuffer := [] }

/-- The `exit` handler attached to every spawned process (lines 363-369).
It clears the globals unconditionally — it does not check whether the
process that exited is still the current one. -/
def exitHandler (st : MainState) : MainState :=
  destroyClient { st with mpvProcess := none }

/-- Delivery of the `exit` event of process `pid`: either a previously
killed process or a live process exiting on its own. -/
def deliverExit (st : MainState) (pid : Nat) : MainState :=
  if pid ∈ st.dyingProcs then
    exitHandler { st with dyingProcs := st.dyingProcs.erase pid }
  else if pid ∈ st.liveProcs then
    exitHandler { st with liveProcs := st.liveProcs.erase pid }
  else st

/-- A scheduled `connectIpc` attempt succeeding: `ipcClient =
net.connect(...)` overwrites the handle (destroying nothing), the
`connect` event runs `setupIpc` and sends `mpv-ready` (lines 460-477). -/
def connectSuccess (st : MainState) : MainState :=
  { st with ipcClient := some st.nextCid,
            openChans := st.openChans ++ [st.nextCid],
            nextCid := st.nextCid + 1,
            uiEvents := st.uiEvents ++ [UiEv.mpvReady] }

/-- `stopPlayback()` (lines 443-449). -/
def stopPlayback (st : MainState) : MainState :=
  let st := killMpv { st with isPlayingContent := false }
  { st with blurayTitles := [], currentBlurayDevice := none,
            uiEvents := st.uiEvents ++ [UiEv.mpvClosed] }

/-- A stdout/stderr `data` event (lines 345-354): extend the cumulative
buffer, re-run the extractor, publish on change. -/
def stdoutData (st : MainState) (chunk : List Char) : MainState :=
  let buf := st.stdoutBuffer ++ chunk
  let r := parseBlurayTitles st.blurayTitles buf
  { st with stdoutBuffer := buf, blurayTitles := r.1,
            uiEvents := st.uiEvents
              ++ (if r.2 then [UiEv.blurayList r.1] else []) }

/-- The `switch-title` IPC handler (lines 568-572):
`if (!currentBlurayDevice) return false` — a JS falsy check, so both a
missing device and an empty-string device are rejected. -/
def switchTitleHandler (st : MainState) (edition : Nat) (sz : Option Nat)
    (wid : List Char) : MainState × Bool :=
  match st.currentBlurayDevice with
  | none => (st, false)
  | some d =>
    if d.isEmpty then (st, false)
    else (startMpv st d (some edition) sz wid, true)

/-- The window-handle argument used by the trace interpreter (its value
is irrelevant to every claim). -/
def widArg : List Char := ("42").data

inductive Action where
  | play (path : List Char) (sz : Option Nat)
  | switchTitle (edition : Nat) (sz : Option Nat)
  | stop
  | exitEvt (pid : Nat)
  | connected
  | stdout (chunk : List Char)
deriving DecidableEq

def step (st : MainState) : Action → MainState
  | Action.play path sz => startMpv st path none sz widArg
  | Action.switchTitle e sz => (switchTitleHandler st e sz widArg).1
  | Action.stop => stopPlayback st
  | Action.exitEvt pid => deliverExit st pid
  | Action.connected => connectSuccess st
  | Action.stdout c => stdoutData st c

def runActions (st : MainState) (as : List Action) : MainState :=
  as.foldl step st


theorem destroyClient_blurayTitles (st : MainState) :
    (destroyClient st).blurayTitles = st.blurayTitles := by
  unfold destroyClient
  cases st.ipcClient <;> rfl

theorem killMpv_blurayTitles (st : MainState) :
    (killMpv st).blurayTitles = st.blurayTitles := by
  unfold killMpv
  cases h : (destroyClient st).mpvProcess <;>
    simp [h, destroyClient_blurayTitles]

/-- C5. A switch-title request issued while no disc device is on record
(`currentBlurayDevice` null) fails synchronously: the handler returns
`false` and the returned state is exactly the input state — no process
is spawned and no session state changes. -/
theorem C5_switch_no_device (st : MainState) (edition : Nat) (sz : Option Nat)
    (wid : List Char) (h : st.currentBlurayDevice = none) :
    switchTitleHandler st edition sz wid = (st, false) := by
  unfold switchTitleHandler
  rw [h]

theorem C5_switch_no_device_witness :
    initState.currentBlurayDevice = none ∧
      switchTitleHandler initState 1 none widArg = (initState, false) :=
  ⟨rfl, C5_switch_no_device initState 1 none widArg rfl⟩

/-- The trace on which the single-instance invariant fails: two
back-to-back play requests (the second before the first ever connects),
then the delivery of the first (killed) process's `exit` event, then a
third play request. -/
def leakTrace : List Action :=
  [Action.play (("a.mkv").data) (some (gb 1)),
   Action.play (("b.mkv").data) (some (gb 1)),
   Action.exitEvt 0,
   Action.play (("c.mkv").data) (some (gb 1))]

/-- C4, evaluated at the failing trace. After the two back-to-back plays
process 0 is killed and process 1 spawned — but the `exit` handler of
process 0 (lines 363-369) then clears the CURRENT process handle without
checking which process exited, so the third play request finds
`mpvProcess === null`, kills nothing, and spawns process 2 while process
1 is still running: two live player processes, the supervisor holding
only the last — process 1 is leaked and can never be killed. -/
theorem C4_two_live_processes :
    (runActions initState leakTrace).liveProcs = [1, 2] ∧
      (runActions initState leakTrace).mpvProcess = some 2 := by decide


theorem cacheArgs_big (n : Nat) (h : gb 10 < n) :
    cacheArgs (some n)
      = [("--demuxer-max-bytes=500M").data,
         ("--demuxer-readahead-secs=60").data] := by
  simp only [cacheArgs]
  rw [if_pos h]

theorem mpvLaunch_plain (wid path : List Char) (te : Option Nat)
    (sz : Option Nat) (hiso : isIsoPath path = false) :
    mpvLaunch wid path te sz =
      { args := baseArgs wid ++ cacheArgs sz ++ commonCacheArgs ++ [path],
        device := none, clearTitles := false } := by
  unfold mpvLaunch
  rw [hiso]
  simp

/-- C7 counterexample. A non-ISO source of size 12 GB whose path is a
disc folder (the `BDMV` marker directory itself): the source has no
disc-folder-marker detection at all — mode selection is only the `.iso`
extension heuristic — so no `--bluray-device` argument is produced,
refuting the claim that the spawned argument vector includes one. -/
theorem C7_counterexample :
    ((mpvLaunch (("42").data) (("D:\\Movies\\Avatar\\BDMV").data) none
        (some (gb 12))).args.any
      (fun a => List.isPrefixOf (("--bluray-device=").data) a)) = false := by
  decide

/-- C7 amended. For a play request with a non-ISO source of size 12 GB
(disc-folder markers are never consulted — no such detection exists in
the source), the spawned argument vector is the base + 500 MB/60 s cache
tier + common cache flags + the literal path as a plain-file argument;
it includes the 500 MB/60 s tier and contains neither a `--dvd-device`
nor a `--bluray-device` argument (only the caller-supplied path literal
itself could carry such a prefix). -/
theorem C7_nonIso_12GB_args (wid path : List Char) (n : Nat)
    (hiso : isIsoPath path = false) (hsz : gb 10 < n) :
    (mpvLaunch wid path none (some n)).args
        = baseArgs wid ++ cacheArgs (some n) ++ commonCacheArgs ++ [path] ∧
      ("--demuxer-max-bytes=500M").data ∈ (mpvLaunch wid path none (some n)).args ∧
      ("--demuxer-readahead-secs=60").data
        ∈ (mpvLaunch wid path none (some n)).args ∧
      (∀ a ∈ (mpvLaunch wid path none (some n)).args, a ≠ path →
        List.isPrefixOf (("--dvd-device=").data) a = false ∧
        List.isPrefixOf (("--bluray-device=").data) a = false) := by
  rw [mpvLaunch_plain wid path none (some n) hiso]
  refine ⟨rfl, ?_, ?_, ?_⟩
  · refine List.mem_append_left _ (List.mem_append_left _ (List.mem_append_right _ ?_))
    rw [cacheArgs_big n hsz]
    exact List.mem_cons_self _ _
  · refine List.mem_append_left _ (List.mem_append_left _ (List.mem_append_right _ ?_))
    rw [cacheArgs_big n hsz]
    exact List.mem_cons_of_mem _ (List.mem_cons_self _ _)
  · intro a ha hne
    rcases List.mem_append.mp ha with h1 | h2
    · rcases List.mem_append.mp h1 with h3 | h4
      · rcases List.mem_append.mp h3 with h5 | h6
        · rcases List.mem_cons.mp h5 with rfl | h7
          · exact ⟨rfl, rfl⟩
          · exact (by decide :
              ∀ x ∈ baseRest,
                List.isPrefixOf (("--dvd-device=").data) x = false ∧
                List.isPrefixOf (("--bluray-device=").data) x = false) a h7
        · rw [cacheArgs_big n hsz] at h6
          exact (by decide :
            ∀ x ∈ [("--demuxer-max-bytes=500M").data,
                   ("--demuxer-readahead-secs=60").data],
              List.isPrefixOf (("--dvd-device=").data) x = false ∧
              List.isPrefixOf (("--bluray-device=").data) x = false) a h6
      · exact (by decide :
          ∀ x ∈ commonCacheArgs,
            List.isPrefixOf (("--dvd-device=").data) x = false ∧
            List.isPrefixOf (("--bluray-device=").data) x = false) a h4
    · rw [List.mem_singleton] at h2
      exact absurd h2 hne

theorem C7_nonIso_12GB_args_witness :
    (isIsoPath (("D:\\Movies\\Avatar\\BDMV").data) = false ∧ gb 10 < gb 12) ∧
      ((mpvLaunch (("42").data) (("D:\\Movies\\Avatar\\BDMV").data) none
          (some (gb 12))).args
        = baseArgs (("42").data) ++ cacheArgs (some (gb 12)) ++ commonCacheArgs
            ++ [("D:\\Movies\\Avatar\\BDMV").data] ∧
      ("--demuxer-max-bytes=500M").data
        ∈ (mpvLaunch (("42").data) (("D:\\Movies\\Avatar\\BDMV").data) none
            (some (gb 12))).args ∧
      ("--demuxer-readahead-secs=60").data
        ∈ (mpvLaunch (("42").data) (("D:\\Movies\\Avatar\\BDMV").data) none
            (some (gb 12))).args ∧
      (∀ a ∈ (mpvLaunch (("42").data) (("D:\\Movies\\Avatar\\BDMV").data) none
          (some (gb 12))).args, a ≠ ("D:\\Movies\\Avatar\\BDMV").data →
        List.isPrefixOf (("--dvd-device=").data) a = false ∧
        List.isPrefixOf (("--bluray-device=").data) a = false)) :=
  ⟨⟨by decide, by decide⟩,
    C7_nonIso_12GB_args (("42").data) (("D:\\Movies\\Avatar\\BDMV").data)
      (gb 12) (by decide) (by decide)⟩


def playTrace : List Action := [Action.play (("a.mkv").data) (some (gb 1))]

def onePlay : MainState := runActions initState playTrace

/-- C8 counterexample. Process 0 is spawned by a play request and then
exits unexpectedly: the handles are cleared (as for a clean stop), but
contrary to the claim NO closed event is sent to the UI — the UI event
log contains no `mpv-closed` at all (only `stopPlayback` ever sends it). -/
theorem C8_counterexample :
    (runActions initState (playTrace ++ [Action.exitEvt 0])).mpvProcess = none ∧
      (runActions initState (playTrace ++ [Action.exitEvt 0])).ipcClient = none ∧
      UiEv.mpvClosed
        ∉ (runActions initState (playTrace ++ [Action.exitEvt 0])).uiEvents := by
  decide

/-- C8 amended. When the player process exits unexpectedly the exit
handler clears the process and channel handles, reaching the idle
handle-state exactly as a clean stop does — but it emits nothing to the
UI: the closed event is emitted only by the explicit stop request, so
the UI cannot distinguish an exited session from one that never
started. -/
theorem C8_exit_clears_no_closed (st : MainState) (pid : Nat)
    (h : pid ∈ st.dyingProcs ∨ pid ∈ st.liveProcs) :
    ((deliverExit st pid).mpvProcess = none ∧
        (deliverExit st pid).ipcClient = none ∧
        (deliverExit st pid).uiEvents = st.uiEvents) ∧
      (stopPlayback st).uiEvents = st.uiEvents ++ [UiEv.mpvClosed] := by
  constructor
  · have hgen : ∀ s : MainState, (exitHandler s).mpvProcess = none ∧
        (exitHandler s).ipcClient = none ∧
        (exitHandler s).uiEvents = s.uiEvents := by
      intro s
      unfold exitHandler destroyClient
      cases s.ipcClient <;> simp
    unfold deliverExit
    by_cases hd : pid ∈ st.dyingProcs
    · rw [if_pos hd]
      exact hgen _
    · rcases h with h | h
      · exact absurd h hd
      · rw [if_neg hd, if_pos h]
        exact hgen _
  · unfold stopPlayback killMpv destroyClient
    cases st.ipcClient <;> cases st.mpvProcess <;> simp

theorem C8_exit_clears_no_closed_witness :
    (0 ∈ onePlay.dyingProcs ∨ 0 ∈ onePlay.liveProcs) ∧
      (((deliverExit onePlay 0).mpvProcess = none ∧
          (deliverExit onePlay 0).ipcClient = none ∧
          (deliverExit onePlay 0).uiEvents = onePlay.uiEvents) ∧
        (stopPlayback onePlay).uiEvents = onePlay.uiEvents ++ [UiEv.mpvClosed]) :=
  ⟨by decide, C8_exit_clears_no_closed onePlay 0 (by decide)⟩


/-- Bluray detection of the ISO branch: the probed size exceeds 10 GB
(an unprobeable size falls into the `catch` branch, which does NOT clear
the title list). -/
def isBigIso : Option Nat → Bool
  | some n => decide (gb 10 < n)
  | none => false

theorem clearTitles_fresh (wid path : List Char) (sz : Option Nat) :
    (mpvLaunch wid path none sz).clearTitles
      = (isIsoPath path && isBigIso sz) := by
  simp only [mpvLaunch]
  cases hiso : isIsoPath path
  · cases sz <;> simp [hiso]
  · cases sz with
    | none => simp [hiso, isBigIso]
    | some n =>
      by_cases hn : gb 10 < n
      · simp [hiso, hn, isBigIso]
      · simp [hiso, hn, isBigIso]

theorem clearTitles_switch (wid path : List Char) (e : Nat) (sz : Option Nat) :
    (mpvLaunch wid path (some e) sz).clearTitles = false := by
  simp only [mpvLaunch]
  cases hiso : isIsoPath path
  · cases sz <;> simp [hiso]
  · cases sz with
    | none => simp [hiso]
    | some n =>
      by_cases hn : gb 10 < n
      · simp [hiso, hn]
      · simp [hiso, hn]

theorem startMpv_blurayTitles (st : MainState) (path : List Char)
    (te : Option Nat) (sz : Option Nat) (wid : List Char) :
    (startMpv st path te sz wid).blurayTitles
      = if (mpvLaunch wid path te sz).clearTitles then []
        else st.blurayTitles := by
  unfold startMpv
  by_cases hte : (te != none) = true
  · simp [hte, killMpv_blurayTitles, destroyClient_blurayTitles]
  · simp [hte, killMpv_blurayTitles, destroyClient_blurayTitles]

theorem stopPlayback_blurayTitles (st : MainState) :
    (stopPlayback st).blurayTitles = [] := rfl

theorem deliverExit_blurayTitles (st : MainState) (pid : Nat) :
    (deliverExit st pid).blurayTitles = st.blurayTitles := by
  have hgen : ∀ s : MainState, (exitHandler s).blurayTitles = s.blurayTitles := by
    intro s
    unfold exitHandler destroyClient
    cases s.ipcClient <;> simp
  unfold deliverExit
  by_cases h1 : pid ∈ st.dyingProcs
  · rw [if_pos h1, hgen]
  · by_cases h2 : pid ∈ st.liveProcs
    · rw [if_neg h1, if_pos h2, hgen]
    · rw [if_neg h1, if_neg h2]

theorem switchTitle_blurayTitles (st : MainState) (e : Nat) (sz : Option Nat)
    (wid : List Char) :
    ((switchTitleHandler st e sz wid).1).blurayTitles = st.blurayTitles := by
  unfold switchTitleHandler
  cases hd : st.currentBlurayDevice with
  | none => rfl
  | some d =>
    by_cases he : d.isEmpty = true
    · simp [he]
    · simp [he, startMpv_blurayTitles, clearTitles_switch]

theorem foldl_addTitle_mem_mono (ms : List RawTitle) :
    ∀ (l : List BTitle) (f : Bool) (u : BTitle), u ∈ l →
      u ∈ (ms.foldl addTitle (l, f)).1 := by
  induction ms with
  | nil => intro l f u h; exact h
  | cons m ms ih =>
    intro l f u h
    rw [List.foldl_cons]
    cases ha : l.any (fun t => t.edition == m.edition) with
    | true =>
      rw [addTitle, ha]
      simp only [if_true]
      exact ih l f u h
    | false =>
      rw [addTitle, ha]
      simp only [Bool.false_eq_true, if_false]
      exact ih _ _ u (List.mem_append_left _ h)

theorem editions_parse_superset (l : List BTitle) (b : List Char) :
    ∀ e ∈ editions l, e ∈ editions (parseBlurayTitles l b).1 := by
  intro e he
  simp only [parseBlurayTitles]
  set p := (scanTitles b).foldl addTitle (l, false) with hp
  have hep : e ∈ editions p.1 := by
    rcases List.mem_map.mp he with ⟨t, ht, hte⟩
    rw [← hte]
    exact List.mem_map_of_mem _ (foldl_addTitle_mem_mono (scanTitles b) l false t ht)
  by_cases hc : (p.2 && !p.1.isEmpty) = true
  · rw [if_pos hc, editions_finalize]
    show e ∈ List.map (fun t => t.edition) (sortTitles p.1)
    exact ((sortTitles_perm p.1).map (fun t => t.edition)).mem_iff.mpr hep
  · rw [if_neg hc]
    exact hep

/-- C9 counterexample trace: a bluray-ISO play accumulates one title from
the diagnostic output; the next fresh play request is for a plain
(non-ISO) 12 GB file. -/
def c9Trace : List Action :=
  [Action.play (("movie.iso").data) (some (gb 12)),
   Action.stdout (("--edition=0 'title: 1 (1:02:03) (00001.mpls)'").data),
   Action.play (("other.mkv").data) (some (gb 12))]

/-- C9 counterexample. The fresh (non-title-switch) play request for the
plain file does NOT clear the accumulated disc-title list — the old
title (edition 0) is still published state afterwards, refuting
"bulk-cleared at the start of every fresh play request regardless of the
type or size of the newly requested source". -/
theorem C9_counterexample :
    (runActions initState c9Trace).blurayTitles.length = 1 ∧
      editions (runActions initState c9Trace).blurayTitles = [0] := by
  decide

/-- C9 amended. At the start of a fresh (non-title-switch) play request
the accumulated disc-title list is bulk-cleared exactly when the new
source is detected as a bluray ISO (`.iso` path whose probed size
exceeds 10 GB); every other fresh play leaves the list unchanged (a
plain file, a DVD ISO, or an unprobeable ISO). Titles are never removed
individually: every supervisor step either bulk-clears the list (this
bluray clear, or the explicit stop) or preserves every edition in it. -/
theorem C9_clear_policy (st : MainState) (path : List Char) (sz : Option Nat)
    (wid : List Char) :
    ((startMpv st path none sz wid).blurayTitles
        = if isIsoPath path && isBigIso sz then [] else st.blurayTitles) ∧
      (∀ a : Action, (step st a).blurayTitles = [] ∨
        ∀ e ∈ editions st.blurayTitles, e ∈ editions (step st a).blurayTitles) := by
  constructor
  · rw [startMpv_blurayTitles, clearTitles_fresh]
  · intro a
    cases a with
    | play p s =>
      by_cases hc : (isIsoPath p && isBigIso s) = true
      · left
        show (startMpv st p none s widArg).blurayTitles = []
        rw [startMpv_blurayTitles, clearTitles_fresh, if_pos hc]
      · right
        intro e he
        show e ∈ editions (startMpv st p none s widArg).blurayTitles
        rw [startMpv_blurayTitles, clearTitles_fresh, if_neg hc]
        exact he
    | switchTitle e s =>
      right
      intro x hx
      show x ∈ editions ((switchTitleHandler st e s widArg).1).blurayTitles
      rw [switchTitle_blurayTitles]
      exact hx
    | stop =>
      left
      exact stopPlayback_blurayTitles st
    | exitEvt pid =>
      right
      intro x hx
      show x ∈ editions (deliverExit st pid).blurayTitles
      rw [deliverExit_blurayTitles]
      exact hx
    | connected =>
      right
      intro x hx
      exact hx
    | stdout c =>
      right
      intro x hx
      exact editions_parse_superset st.blurayTitles (st.stdoutBuffer ++ c) x hx

end SPlayer
